import Mathlib

/-!
Verification of the structural-integrity audit core of the repository
(`scripts/analyze_dependencies.py`, `scripts/fix_broken_links.py`).

The Python code is shallowly embedded: file paths are lists of path
segments (the components of `pathlib.Path.parts`, without the leading
root marker), file contents are `String`/`List Char`, the filesystem is
an explicit list of existing paths, and every fallible operation is made
total with `Option`.  Recursive traversals carry an explicit fuel
argument that is instantiated with a bound large enough that it is never
exhausted on the inputs the theorems talk about.
-/

/-- A filesystem path, as its list of segments (`pathlib.Path.parts`
without the root marker). -/
abbrev PathT := List String

/-! ## String primitives

Python's `str` operations, re-implemented over `List Char` (the
kernel-opaque built-in `String` functions are avoided so that every
theorem can be evaluated on concrete inputs). -/

/-- Python `s.startswith(pre)`. -/
def strStartsWith (s pre : String) : Bool :=
  pre.data.isPrefixOf s.data

/-- Python `s.split(sep)` for a one-character separator. -/
def splitOnChar (sep : Char) : List Char → List (List Char)
  | [] => [[]]
  | c :: rest =>
    let r := splitOnChar sep rest
    if c = sep then [] :: r
    else
      match r with
      | h :: t => (c :: h) :: t
      | [] => [[c]]

/-- `splitOnChar` on `String`s. -/
def strSplitOn (s : String) (sep : Char) : List String :=
  (splitOnChar sep s.data).map List.asString

/-- Python `s.replace(pat, repl)` (all occurrences, scanning left to
right); `fuel` is instantiated with the length of the subject. -/
def replaceAllChars (pat repl : List Char) : Nat → List Char → List Char
  | 0, l => l
  | fuel + 1, l =>
    if pat ≠ [] ∧ pat.isPrefixOf l then
      repl ++ replaceAllChars pat repl fuel (l.drop pat.length)
    else
      match l with
      | [] => []
      | c :: rest => c :: replaceAllChars pat repl fuel rest

/-- Python `s.replace(pat, repl)` on `String`s. -/
def strReplace (s pat repl : String) : String :=
  (replaceAllChars pat.data repl.data s.data.length s.data).asString

/-! ## Path arithmetic shared by both scripts -/

/-- Lexical normalization performed by `Path.resolve()`: empty and `.`
segments disappear, `..` removes the preceding segment (staying put at
the root). -/
def normalizeSegs (segs : List String) : List String :=
  segs.foldl (fun acc seg =>
    if seg = "" || seg = "." then acc
    else if seg = ".." then acc.dropLast
    else acc ++ [seg]) []

/-- The components of a relative link string, as `pathlib` reports them:
split on `/`, dropping empty and single-dot components. -/
def pathParts (s : String) : List String :=
  (strSplitOn s '/').filter (fun x => x ≠ "" && x ≠ ".")

/-- `pathlib.Path(s).name`: the final component. -/
def pathName (s : String) : String :=
  (pathParts s).getLastD ""

/-- Length of the longest common segment run of two paths
(`os.path.commonprefix` on split lists). -/
def commonLen : List String → List String → Nat
  | a :: as, b :: bs => if a = b then commonLen as bs + 1 else 0
  | _, _ => 0

/-- `os.path.relpath(target, source.parent)` as used by
`calculate_relative_path` in `fix_broken_links.py`. -/
def calculate_relative_path (source target : PathT) : String :=
  let startDir := source.dropLast
  let c := commonLen startDir target
  let segs := List.replicate (startDir.length - c) ".." ++ target.drop c
  if segs.isEmpty then "." else String.intercalate "/" segs

/-- Rendering of a root-relative `Path` back to the string stored in the
dependency graph (`str(resolved.relative_to(root_dir))`). -/
def pathToString (segs : List String) : String :=
  if segs.isEmpty then "." else String.intercalate "/" segs

/-! ## `analyze_dependencies.py`: import extraction

The three regular expressions of `analyze_imports` are embedded as
explicit matchers.  Each pattern's backtracking is deterministic except
for the lazy `.*?` inside the first pattern, which is realized by a
forward scan over non-newline characters.  `re.findall` is the
scan-and-advance loop `findallMatches`. -/

/-- Python `\s` on the ASCII range. -/
def isWSChar (c : Char) : Bool :=
  c = ' ' || c = '\t' || c = '\n' || c = '\r' || c = Char.ofNat 11 || c = Char.ofNat 12

/-- A single or double quote character (the character class of the
patterns of `analyze_imports`). -/
def isQuoteChar (c : Char) : Bool :=
  c = Char.ofNat 39 || c = Char.ofNat 34

/-- Match a literal character sequence, returning what follows it. -/
def litMatch (pat l : List Char) : Option (List Char) :=
  if pat.isPrefixOf l then some (l.drop pat.length) else none

/-- Match `\s+` (greedy, deterministic because what follows in every
use is a non-whitespace character). -/
def wsPlus (l : List Char) : Option (List Char) :=
  let w := l.takeWhile isWSChar
  if w.isEmpty then none else some (l.drop w.length)

/-- Match a quote, a nonempty run of non-quote characters (the capture
group) and a closing quote. -/
def quoteCapture (l : List Char) : Option (List Char × List Char) :=
  match l with
  | [] => none
  | c :: r1 =>
    if isQuoteChar c then
      let cap := r1.takeWhile (fun d => !isQuoteChar d)
      let r2 := r1.drop cap.length
      if cap.isEmpty then none
      else
        match r2 with
        | d :: r3 => if isQuoteChar d then some (cap, r3) else none
        | [] => none
    else none

/-- The tail `\s+from\s+['"]cap['"]` of the optional group of the
first pattern of `analyze_imports`. -/
def p1GroupTail (l : List Char) : Option (List Char × List Char) := do
  let r1 ← wsPlus l
  let r2 ← litMatch "from".data r1
  let r3 ← wsPlus r2
  quoteCapture r3

/-- The lazy `.*?` scan: try the group tail at the current offset, else
advance over one non-newline character. -/
def p1Lazy : Nat → List Char → Option (List Char × List Char)
  | 0, _ => none
  | fuel + 1, l =>
    match p1GroupTail l with
    | some r => some r
    | none =>
      match l with
      | c :: rest => if c = '\n' then none else p1Lazy fuel rest
      | [] => none

/-- Pattern `import\s+(?:.*?\s+from\s+)?['"]([^'"]+)['"]` at one
position. -/
def p1Match (l : List Char) : Option (List Char × List Char) := do
  let r1 ← litMatch "import".data l
  let r2 ← wsPlus r1
  match p1Lazy (r2.length + 1) r2 with
  | some res => some res
  | none => quoteCapture r2

/-- Pattern `require\(['"]([^'"]+)['"]\)` at one position. -/
def p2Match (l : List Char) : Option (List Char × List Char) := do
  let r1 ← litMatch "require(".data l
  let (cap, r2) ← quoteCapture r1
  let r3 ← litMatch ")".data r2
  pure (cap, r3)

/-- Pattern `from\s+['"]([^'"]+)['"]` at one position. -/
def p3Match (l : List Char) : Option (List Char × List Char) := do
  let r1 ← litMatch "from".data l
  let r2 ← wsPlus r1
  quoteCapture r2

/-- `re.findall`: scan left to right, emitting the capture of each
match and continuing after it, advancing one character on failure. -/
def findallMatches (m : List Char → Option (List Char × List Char)) :
    Nat → List Char → List (List Char)
  | 0, _ => []
  | _ + 1, [] => []
  | fuel + 1, c :: rest =>
    match m (c :: rest) with
    | some (cap, l') => cap :: findallMatches m fuel l'
    | none => findallMatches m fuel rest

/-- The body of `analyze_imports`: all three patterns, concatenated in
pattern order. -/
def analyzeImportsContent (content : String) : List String :=
  let cs := content.data
  ((findallMatches p1Match (cs.length + 1) cs)
    ++ (findallMatches p2Match (cs.length + 1) cs)
    ++ (findallMatches p3Match (cs.length + 1) cs)).map List.asString

/-- `analyze_imports`: a file whose read fails (`except: pass`) yields
the empty import list. -/
def analyze_imports (readResult : Option String) : List String :=
  match readResult with
  | none => []
  | some content => analyzeImportsContent content

/-! ## `analyze_dependencies.py`: reference resolution
(`build_dependency_graph`, lines 49-64) -/

/-- Resolution of one extracted reference into the edge list entries it
contributes: a `.`-reference resolves against the referencing file's
directory and is kept only when it stays under the root (the
`relative_to` failure is swallowed), an `@/`-reference has the alias
substituted, anything else is tagged external. -/
def resolveImport (root parentDir : PathT) (imp : String) : List String :=
  if strStartsWith imp "." then
    let resolved := normalizeSegs (parentDir ++ strSplitOn imp '/')
    if root.isPrefixOf resolved then [pathToString (resolved.drop root.length)]
    else []
  else if strStartsWith imp "@/" then [strReplace imp "@/" "src/"]
  else ["external:" ++ imp]

/-- The `resolved_imports` accumulation loop of
`build_dependency_graph`. -/
def resolvedImportsList (root parentDir : PathT) (imps : List String) :
    List String :=
  imps.foldl (fun acc imp => acc ++ resolveImport root parentDir imp) []

/-! ## `analyze_dependencies.py`: cycle detection
(`find_circular_dependencies`) -/

/-- A dependency graph: insertion-ordered association list from module
identity to its ordered successor list (a Python dict has unique
keys). -/
abbrev Graph := List (String × List String)

/-- `node in graph` / `graph[node]`. -/
def lookupGraph (g : Graph) (n : String) : Option (List String) :=
  (g.find? (fun p => p.1 = n)).map (fun p => p.2)

/-- Python set insertion (membership is all that matters). -/
def insertSet (l : List String) (x : String) : List String :=
  if x ∈ l then l else l ++ [x]

/-- The mutable state shared by the recursive `dfs`: the global visited
set, the recursion stack, and the accumulated `circulars` list. -/
structure DfsState where
  visited : List String
  stack : List String
  circulars : List (List String)
  deriving Repr, DecidableEq

/-- One recursive `dfs(node, path, visited, rec_stack)` call of
`find_circular_dependencies`.  `path` is passed by value (the Python
code copies it at each recursive call), the sets and `circulars` are
threaded.  The Python `circulars.extend(result)` extends the list with
itself (the callee returns the very same list object), so a nonempty
`circulars` doubles after each recursive call — faithfully reproduced
here; the final exact-sequence deduplication collapses the copies. -/
def dfs : Nat → Graph → String → List String → DfsState → DfsState
  | 0, _, _, _, st => st
  | fuel + 1, g, node, path, st =>
    let path' := path ++ [node]
    let st1 : DfsState :=
      ⟨insertSet st.visited node, insertSet st.stack node, st.circulars⟩
    let st2 :=
      match lookupGraph g node with
      | none => st1
      | some nbs =>
        nbs.foldl (fun acc nb =>
          if nb ∈ acc.visited then
            if nb ∈ acc.stack then
              { acc with circulars :=
                  acc.circulars ++ [path'.drop (path'.findIdx (fun x => x = nb)) ++ [nb]] }
            else acc
          else
            let r := dfs fuel g nb path' acc
            { r with circulars :=
                if r.circulars.isEmpty then r.circulars
                else r.circulars ++ r.circulars }) st1
    { st2 with stack := st2.stack.erase node }

/-- Fuel bound: the recursion depth never exceeds the number of nodes
that can ever be marked visited. -/
def dfsFuel (g : Graph) : Nat :=
  g.length + (g.map (fun p => p.2.length)).sum + 1

/-- The post-traversal exact-duplicate removal of
`find_circular_dependencies`. -/
def dedupCycles (l : List (List String)) : List (List String) :=
  l.foldl (fun acc c => if c ∈ acc then acc else acc ++ [c]) []

/-- `find_circular_dependencies(graph)`: DFS from every not-yet-visited
key (fresh recursion stack per root, shared visited set and `circulars`
accumulator), then exact-sequence deduplication. -/
def find_circular_dependencies (g : Graph) : List (List String) :=
  let st := g.foldl (fun st kv =>
    if kv.1 ∈ st.visited then st
    else dfs (dfsFuel g) g kv.1 [] ⟨st.visited, [], st.circulars⟩)
    (⟨[], [], []⟩ : DfsState)
  dedupCycles st.circulars

/-! ## `fix_broken_links.py`: the file index (`build_file_cache`,
`find_file_in_cache`) -/

/-- The file-name index: insertion-ordered association list from bare
filename to the paths carrying it, in tree-enumeration order. -/
abbrev Cache := List (String × List PathT)

/-- The skip condition of `build_file_cache`: a `node_modules` segment
anywhere, or a directory segment (all but the final component) starting
with a dot. -/
def skipCachedFile (p : PathT) : Bool :=
  p.contains "node_modules" || p.dropLast.any (fun s => strStartsWith s ".")

/-- `file_cache[filename].append(md_file)` with on-demand key
creation. -/
def insertCache (cache : Cache) (name : String) (p : PathT) : Cache :=
  if cache.any (fun kv => kv.1 = name) then
    cache.map (fun kv => if kv.1 = name then (kv.1, kv.2 ++ [p]) else kv)
  else cache ++ [(name, [p])]

/-- `build_file_cache()`, as a function of the enumerated tree (the
`rglob("*.md")` result in enumeration order). -/
def build_file_cache (tree : List PathT) : Cache :=
  tree.foldl (fun cache p =>
    if skipCachedFile p then cache
    else insertCache cache (p.getLastD "") p) []

/-- `find_file_in_cache`: `file_cache.get(filename, [])`. -/
def find_file_in_cache (cache : Cache) (filename : String) : List PathT :=
  ((cache.find? (fun kv => kv.1 = filename)).map (fun kv => kv.2)).getD []

/-! ## `fix_broken_links.py`: link resolution and candidate scoring -/

/-- `resolve_link`: strip any fragment, resolve against the source
file's directory, and report whether the resolved path exists in the
filesystem `fs` (the set of paths existing on disk), together with the
resolved path. -/
def resolve_link (fs : List PathT) (sourceFile : PathT) (linkUrl : String) :
    Bool × PathT :=
  let cleanUrl := (strSplitOn linkUrl '#').headD ""
  let target := normalizeSegs (sourceFile.dropLast ++ strSplitOn cleanUrl '/')
  (fs.contains target, target)

/-- The heuristic score of `find_correct_path`, exactly in the order
the code accumulates it. -/
def scoreCandidate (origParts : List String) (candParts : List String) : Nat :=
  let s0 := origParts.dropLast.foldl
    (fun s p => if p ∈ candParts then s + 2 else s) 0
  let s1 := if "docs" ∈ candParts then s0 + 1 else s0
  let s2 := if "archive" ∉ candParts then s1 + 3 else s1
  let s3 := if "how-to" ∈ origParts ∧ "how-to" ∈ candParts then s2 + 5 else s2
  let s4 := if "reference" ∈ origParts ∧ "reference" ∈ candParts then s3 + 5 else s3
  let s5 := if "explanation" ∈ origParts ∧ "explanation" ∈ candParts then s4 + 5 else s4
  if "tutorials" ∈ origParts ∧ "tutorials" ∈ candParts then s5 + 5 else s5

/-- The best-match selection loop of `find_correct_path`
(`best_match = None`, `best_score = 0`, strict improvement only). -/
def pickBest (origParts : List String) (candidates : List PathT) :
    Option PathT × Nat :=
  candidates.foldl (fun acc c =>
    let score := scoreCandidate origParts c
    if score > acc.2 then (some c, score) else acc) (none, 0)

/-- The fallback of `find_correct_path` when the best score is below
the confidence floor: first non-archival candidate, else the first
candidate. -/
def fallbackCandidate (candidates : List PathT) : Option PathT :=
  match candidates.find? (fun c => !(c.contains "archive")) with
  | some c => some c
  | none => candidates.head?

/-- `find_correct_path(source_file, broken_link)`: cache lookup by bare
filename; none ⇒ no fix; exactly one ⇒ that one; several ⇒ scored
selection with confidence floor 3 and archival fallbacks.  The result is
rendered relative to the source file's directory. -/
def find_correct_path (cache : Cache) (sourceFile : PathT) (brokenLink : String) :
    Option String :=
  let filename := pathName brokenLink
  let candidates := find_file_in_cache cache filename
  if candidates.isEmpty then none
  else if candidates.length = 1 then
    some (calculate_relative_path sourceFile (candidates.headD []))
  else
    let origParts := pathParts brokenLink
    let best := pickBest origParts candidates
    match best.1 with
    | some m =>
      if best.2 ≥ 3 then some (calculate_relative_path sourceFile m)
      else (fallbackCandidate candidates).map (calculate_relative_path sourceFile)
    | none => (fallbackCandidate candidates).map (calculate_relative_path sourceFile)

/-! ## `fix_broken_links.py`: markdown link extraction -/

/-- Substring test (Python `pat in s`). -/
def hasSub : List Char → List Char → Bool
  | pat, [] => pat.isEmpty
  | pat, c :: rest => pat.isPrefixOf (c :: rest) || hasSub pat rest

/-- One attempt of the pattern `\[([^\]]+)\]\(([^)]+)\)` at the head of
the input; returns the full match, the two captures and the rest. -/
def matchLink (l : List Char) : Option (String × String × String × List Char) :=
  match l with
  | '[' :: r1 =>
    let t := r1.takeWhile (fun c => c ≠ ']')
    let r2 := r1.drop t.length
    if t.isEmpty then none
    else
      match r2 with
      | ']' :: '(' :: r3 =>
        let u := r3.takeWhile (fun c => c ≠ ')')
        let r4 := r3.drop u.length
        if u.isEmpty then none
        else
          match r4 with
          | ')' :: r5 =>
            some (('[' :: t ++ ']' :: '(' :: u ++ [')']).asString,
              t.asString, u.asString, r5)
          | _ => none
      | _ => none
  | _ => none

/-- The internal-link filter of `extract_markdown_links`: not an
http/https URL, mentions `.md`, and is not anchor-only. -/
def keepLink (u : String) : Bool :=
  !(strStartsWith u "http://") && !(strStartsWith u "https://")
    && hasSub ".md".data u.data && ((strSplitOn u '#').headD "") ≠ ""

/-- The `finditer` scan of `extract_markdown_links`. -/
def scanLinks : Nat → List Char → List (String × String × String)
  | 0, _ => []
  | _ + 1, [] => []
  | fuel + 1, c :: rest =>
    match matchLink (c :: rest) with
    | some (full, text, url, l') =>
      (if keepLink url then [(full, text, url)] else []) ++ scanLinks fuel l'
    | none => scanLinks fuel rest

/-- `extract_markdown_links(content)`: the retained
`(full_match, link_text, link_url)` triples in scan order. -/
def extract_markdown_links (content : List Char) : List (String × String × String) :=
  scanLinks (content.length + 1) content

/-! ## `fix_broken_links.py`: the rewrite engine (`fix_links_in_file`) -/

/-- Replace the first occurrence of `pat` in `l` (Python
`str.replace(old, new, 1)`); when `pat` does not occur, `l` is
unchanged. -/
def replaceOnce (l pat repl : List Char) : List Char :=
  if pat.isPrefixOf l then repl ++ l.drop pat.length
  else
    match l with
    | [] => []
    | c :: rest => c :: replaceOnce rest pat repl

/-- `link_url.split('#', 1)[1]`, defined when a fragment marker is
present. -/
def afterHash (url : String) : String :=
  String.intercalate "#" (strSplitOn url '#').tail

/-- The replacement link attempted for a broken link with chosen
correction `corrected`: the correction with the original fragment
suffix re-attached (`new_link = corrected_link + anchor`). -/
def attemptedLink (linkUrl corrected : String) : String :=
  corrected ++ (if linkUrl.data.contains '#' then "#" ++ afterHash linkUrl else "")

/-- An applied-fix record (`file_stats["fixes"]` entry). -/
structure FixRec where
  old : String
  new : String
  text : String
  deriving Repr, DecidableEq

/-- Why a broken link was recorded unfixable: a replacement was
attempted and failed re-validation, or no candidate was found. -/
inductive UnfixKind where
  | attemptedFix (newLink : String)
  | noCandidates
  deriving Repr, DecidableEq

/-- The outcome of the per-link body of the loop in
`fix_links_in_file`. -/
structure LinkOutcome where
  content : List Char
  isBroken : Bool
  fix : Option FixRec
  unfixable : Option (String × UnfixKind)
  deriving Repr, DecidableEq

/-- The body of the `for full_match, link_text, link_url in links` loop
of `fix_links_in_file`: skip valid links; for a broken one, consult
`find_correct_path`, re-validate the attempted replacement with
`resolve_link`, and substitute (first occurrence only) exactly when
re-validation succeeds, otherwise record the attempt as unfixable. -/
def processLink (fs : List PathT) (cache : Cache) (filePath : PathT)
    (content : List Char) (fullMatch linkText linkUrl : String) : LinkOutcome :=
  if (resolve_link fs filePath linkUrl).1 then ⟨content, false, none, none⟩
  else
    match find_correct_path cache filePath linkUrl with
    | some corrected =>
      if corrected ≠ linkUrl then
        let newLink := attemptedLink linkUrl corrected
        let newFull := "[" ++ linkText ++ "](" ++ newLink ++ ")"
        if (resolve_link fs filePath newLink).1 then
          ⟨replaceOnce content fullMatch.data newFull.data, true,
            some ⟨linkUrl, newLink, linkText⟩, none⟩
        else ⟨content, true, none, some (linkUrl, .attemptedFix newLink)⟩
      else ⟨content, true, none, some (linkUrl, .noCandidates)⟩
    | none => ⟨content, true, none, some (linkUrl, .noCandidates)⟩

/-- The per-file statistics record of `fix_links_in_file`. -/
structure FileStats where
  linksFound : Nat
  brokenLinks : Nat
  fixedLinks : Nat
  unfixableLinks : Nat
  fixes : List FixRec
  deriving Repr, DecidableEq

/-- `fix_links_in_file(file_path)`: on read failure the zeroed
statistics are returned and nothing is written; otherwise every
extracted link is processed in order and the new content is written
back exactly when it differs from the original (and this is not a dry
run). -/
def fix_links_in_file (fs : List PathT) (cache : Cache) (filePath : PathT)
    (dryRun : Bool) (readResult : Option (List Char)) :
    FileStats × Option (List Char) :=
  match readResult with
  | none => (⟨0, 0, 0, 0, []⟩, none)
  | some content0 =>
    let links := extract_markdown_links content0
    let init : List Char × FileStats := (content0, ⟨links.length, 0, 0, 0, []⟩)
    let res := links.foldl (fun acc l =>
      let out := processLink fs cache filePath acc.1 l.1 l.2.1 l.2.2
      (out.content,
        { acc.2 with
          brokenLinks := acc.2.brokenLinks + (if out.isBroken then 1 else 0)
          fixedLinks := acc.2.fixedLinks + (if out.fix.isSome then 1 else 0)
          unfixableLinks :=
            acc.2.unfixableLinks + (if out.unfixable.isSome then 1 else 0)
          fixes := acc.2.fixes ++ out.fix.toList })) init
    (res.2, if !dryRun && res.1 ≠ content0 then some res.1 else none)

/-! ## Concrete graphs used by the cycle-detection claims -/

/-- The three-node cycle graph of the C2 scenario. -/
def c2Graph : Graph := [("a", ["b"]), ("b", ["c"]), ("c", ["a"])]

/-- The C1 counterexample graph: the cycle a→b→c→a plus the chord
a→c, giving a second simple cycle a→c→a. -/
def c1Graph : Graph := [("a", ["b", "c"]), ("b", ["c"]), ("c", ["a"])]

/-! ## Theorems -/

/-- C1 (counterexample): the cycle detector does not return every
simple reachable cycle.  In `c1Graph` the edges a→c and c→a form a
simple cycle reachable from node a, yet the detector's entire output is
the single sequence [a, b, c, a]; no returned sequence traverses the
cycle a→c→a (neither of its two closing rotations is returned).  The
reason: when the edge a→c is examined, c is already globally visited
and no longer on the recursion stack, so the back edge is ignored. -/
theorem claim_C1_counterexample :
    ("c" ∈ (lookupGraph c1Graph "a").getD []
      ∧ "a" ∈ (lookupGraph c1Graph "c").getD [])
    ∧ find_circular_dependencies c1Graph = [["a", "b", "c", "a"]]
    ∧ ["a", "c", "a"] ∉ find_circular_dependencies c1Graph
    ∧ ["c", "a", "c"] ∉ find_circular_dependencies c1Graph := by
  decide

/-- C1 (amended): the detector is not complete for simple cycles in
general; what holds is that a graph whose adjacency is exactly a
three-node cycle A→B→C→A yields an output that traverses that cycle:
for any three distinct node names the output is exactly
[[A, B, C, A]]. -/
theorem claim_C1_theorem (a b c : String) (hab : a ≠ b) (hac : a ≠ c)
    (hbc : b ≠ c) :
    find_circular_dependencies [(a, [b]), (b, [c]), (c, [a])] = [[a, b, c, a]] := by
  have hba := hab.symm; have hca := hac.symm; have hcb := hbc.symm
  simp [find_circular_dependencies, dfsFuel, dfs, lookupGraph, insertSet,
    dedupCycles, hab, hac, hbc, hba, hca, hcb, List.find?, List.findIdx_cons]

/-- Witness for C1: the amended theorem applied at the concrete nodes
x, y, z. -/
theorem claim_C1_witness :
    (("x" : String) ≠ "y" ∧ ("x" : String) ≠ "z" ∧ ("y" : String) ≠ "z")
    ∧ find_circular_dependencies [("x", ["y"]), ("y", ["z"]), ("z", ["x"])]
      = [["x", "y", "z", "x"]] :=
  ⟨⟨by decide, by decide, by decide⟩,
    claim_C1_theorem "x" "y" "z" (by decide) (by decide) (by decide)⟩

/-- C2: on the graph a→b→c→a the detector (after its exact-sequence
deduplication) returns exactly one cycle, the length-4 sequence
[a, b, c, a], whose first and last elements agree and which visits a, b
and c. -/
theorem claim_C2_theorem :
    find_circular_dependencies c2Graph = [["a", "b", "c", "a"]]
    ∧ (find_circular_dependencies c2Graph).length = 1
    ∧ ((find_circular_dependencies c2Graph).headD []).length = 4
    ∧ ((find_circular_dependencies c2Graph).headD []).head?
      = ((find_circular_dependencies c2Graph).headD []).getLast?
    ∧ "a" ∈ (find_circular_dependencies c2Graph).headD []
    ∧ "b" ∈ (find_circular_dependencies c2Graph).headD []
    ∧ "c" ∈ (find_circular_dependencies c2Graph).headD [] := by
  decide

/-- The file content of the C6 scenario. -/
def c6Content : String := "import x from \"./a\"\nrequire(\"./b\")"

/-- C6 (counterexample): on the scenario content the import extractor
does not return two references: the bare `from "X"` pattern matches the
from-clause of the ES import a second time, so the result is the
three-element list [./a, ./b, ./a]. -/
theorem claim_C6_counterexample :
    analyze_imports (some c6Content) = ["./a", "./b", "./a"]
    ∧ (analyze_imports (some c6Content)).length ≠ 2
    ∧ analyze_imports (some c6Content) ≠ ["./a", "./b"] := by
  decide

/-- C6 (amended): on the scenario content the extractor returns three
references, ./a, ./b and ./a — the ES-import pattern and the bare
from-pattern both match the first statement and duplicates across
patterns are preserved — and every returned reference starts with the
path-relative marker. -/
theorem claim_C6_theorem :
    analyze_imports (some c6Content) = ["./a", "./b", "./a"]
    ∧ (analyze_imports (some c6Content)).all (fun r => strStartsWith r ".") = true := by
  decide

/-- C9: extraction and per-file repair are total functions of the read
result, and a failed read (`none`) yields the empty reference sequence,
zeroed per-file statistics, and no write — the file contributes no
edges and no links, and the scan continues with the other files. -/
theorem claim_C9_theorem :
    analyze_imports none = []
    ∧ ∀ (fs : List PathT) (cache : Cache) (filePath : PathT) (dryRun : Bool),
        fix_links_in_file fs cache filePath dryRun none = (⟨0, 0, 0, 0, []⟩, none) :=
  ⟨rfl, fun _ _ _ _ => rfl⟩

/-- C8: when the file-index lookup for the broken link's bare filename
returns exactly one candidate, `find_correct_path` returns that
candidate rendered relative to the source file's directory,
unconditionally and without scoring. -/
theorem claim_C8_theorem (cache : Cache) (sourceFile : PathT)
    (brokenLink : String) (c : PathT)
    (h : find_file_in_cache cache (pathName brokenLink) = [c]) :
    find_correct_path cache sourceFile brokenLink
      = some (calculate_relative_path sourceFile c) := by
  simp [find_correct_path, h]

/-- Witness for C8 at a concrete one-candidate index. -/
theorem claim_C8_witness :
    find_file_in_cache [("g.md", [["r", "docs", "g.md"]])] (pathName "../g.md")
      = [["r", "docs", "g.md"]]
    ∧ find_correct_path [("g.md", [["r", "docs", "g.md"]])] ["r", "sub", "a.md"] "../g.md"
      = some (calculate_relative_path ["r", "sub", "a.md"] ["r", "docs", "g.md"]) :=
  ⟨by decide, claim_C8_theorem _ _ _ _ (by decide)⟩

/-- C4: for a detected broken link with a chosen replacement (a
correction differing from the original target), the substitution is
committed if and only if re-validating the attempted replacement with
`resolve_link` — the same existence check that flagged the link —
succeeds; on failure the content is unchanged for that link and an
unfixable record carrying the attempted replacement is produced. -/
theorem claim_C4_theorem (fs : List PathT) (cache : Cache) (filePath : PathT)
    (content : List Char) (fullMatch linkText linkUrl corrected : String)
    (hBroken : (resolve_link fs filePath linkUrl).1 = false)
    (hFix : find_correct_path cache filePath linkUrl = some corrected)
    (hNe : corrected ≠ linkUrl) :
    ((resolve_link fs filePath (attemptedLink linkUrl corrected)).1 = true →
      processLink fs cache filePath content fullMatch linkText linkUrl
        = ⟨replaceOnce content fullMatch.data
            ("[" ++ linkText ++ "](" ++ attemptedLink linkUrl corrected ++ ")").data,
          true, some ⟨linkUrl, attemptedLink linkUrl corrected, linkText⟩, none⟩)
    ∧ ((resolve_link fs filePath (attemptedLink linkUrl corrected)).1 = false →
      processLink fs cache filePath content fullMatch linkText linkUrl
        = ⟨content, true, none,
            some (linkUrl, .attemptedFix (attemptedLink linkUrl corrected))⟩) := by
  constructor <;> intro hv <;>
    simp [processLink, hBroken, hFix, hNe, hv]

/-- Witness for C4: a concrete broken link whose chosen replacement
re-validates, committed by the engine. -/
theorem claim_C4_witness :
    ((resolve_link [["r", "docs", "b.md"], ["r", "docs"], ["r"]] ["r", "a.md"] "b.md").1 = false)
    ∧ (find_correct_path [("b.md", [["r", "docs", "b.md"]])] ["r", "a.md"] "b.md"
        = some "docs/b.md")
    ∧ (("docs/b.md" : String) ≠ "b.md")
    ∧ ((resolve_link [["r", "docs", "b.md"], ["r", "docs"], ["r"]] ["r", "a.md"]
          (attemptedLink "b.md" "docs/b.md")).1 = true →
        processLink [["r", "docs", "b.md"], ["r", "docs"], ["r"]]
            [("b.md", [["r", "docs", "b.md"]])] ["r", "a.md"]
            "see [t](b.md) end".data "[t](b.md)" "t" "b.md"
          = ⟨replaceOnce "see [t](b.md) end".data "[t](b.md)".data
              ("[" ++ "t" ++ "](" ++ attemptedLink "b.md" "docs/b.md" ++ ")").data,
            true, some ⟨"b.md", attemptedLink "b.md" "docs/b.md", "t"⟩, none⟩) :=
  ⟨by decide, by decide, by decide,
    ( claim_C4_theorem [["r", "docs", "b.md"], ["r", "docs"], ["r"]]
      [("b.md", [["r", "docs", "b.md"]])] ["r", "a.md"]
      "see [t](b.md) end".data "[t](b.md)" "t" "b.md" "docs/b.md"
      (by decide) (by decide) (by decide)).1⟩

/-- C5: every replacement the engine commits (a recorded fix) passes
`resolve_link`, the same existence check used to flag the original
link; consequently, when a later pass re-examines such a fixed link, it
finds it valid and leaves the content untouched. -/
theorem claim_C5_theorem (fs : List PathT) (cache : Cache) (filePath : PathT)
    (content : List Char) (fullMatch linkText linkUrl : String) (f : FixRec)
    (h : (processLink fs cache filePath content fullMatch linkText linkUrl).fix
      = some f) :
    (resolve_link fs filePath f.new).1 = true
    ∧ ∀ (content2 : List Char) (fullMatch2 linkText2 : String),
        processLink fs cache filePath content2 fullMatch2 linkText2 f.new
          = ⟨content2, false, none, none⟩ := by
  by_cases hb : (resolve_link fs filePath linkUrl).1
  · simp [processLink, hb] at h
  · rcases hc : find_correct_path cache filePath linkUrl with _ | corrected
    · simp [processLink, hb, hc] at h
    · by_cases hne : corrected = linkUrl
      · simp [processLink, hb, hc, hne] at h
      · by_cases hv : (resolve_link fs filePath (attemptedLink linkUrl corrected)).1
        · simp [processLink, hb, hc, hne, hv] at h
          have hnew : f.new = attemptedLink linkUrl corrected := by
            rw [← h]
          constructor
          · rw [hnew]; exact hv
          · intro content2 fullMatch2 linkText2
            rw [hnew]
            simp [processLink, hv]
        · simp [processLink, hb, hc, hne, hv] at h

/-- Witness for C5: the concrete committed fix of the C4 scenario
passes re-validation and is skipped by a re-examination. -/
theorem claim_C5_witness :
    ((processLink [["r", "docs", "b.md"], ["r", "docs"], ["r"]]
        [("b.md", [["r", "docs", "b.md"]])] ["r", "a.md"]
        "see [t](b.md) end".data "[t](b.md)" "t" "b.md").fix
      = some ⟨"b.md", "docs/b.md", "t"⟩)
    ∧ (resolve_link [["r", "docs", "b.md"], ["r", "docs"], ["r"]] ["r", "a.md"]
        (FixRec.mk "b.md" "docs/b.md" "t").new).1 = true
    ∧ processLink [["r", "docs", "b.md"], ["r", "docs"], ["r"]]
        [("b.md", [["r", "docs", "b.md"]])] ["r", "a.md"]
        "xx [t](docs/b.md) yy".data "[t](docs/b.md)" "t"
        (FixRec.mk "b.md" "docs/b.md" "t").new
      = ⟨"xx [t](docs/b.md) yy".data, false, none, none⟩ :=
  ⟨by decide,
    ( claim_C5_theorem [["r", "docs", "b.md"], ["r", "docs"], ["r"]]
      [("b.md", [["r", "docs", "b.md"]])] ["r", "a.md"]
      "see [t](b.md) end".data "[t](b.md)" "t" "b.md"
      ⟨"b.md", "docs/b.md", "t"⟩ (by decide)).1,
    ( claim_C5_theorem [["r", "docs", "b.md"], ["r", "docs"], ["r"]]
      [("b.md", [["r", "docs", "b.md"]])] ["r", "a.md"]
      "see [t](b.md) end".data "[t](b.md)" "t" "b.md"
      ⟨"b.md", "docs/b.md", "t"⟩ (by decide)).2
      "xx [t](docs/b.md) yy".data "[t](docs/b.md)" "t"⟩

/-- Accumulator law for the `resolved_imports` loop. -/
theorem resolvedImportsList_go (root parentDir : PathT) (l : List String)
    (acc : List String) :
    l.foldl (fun a i => a ++ resolveImport root parentDir i) acc
      = acc ++ resolvedImportsList root parentDir l := by
  induction l generalizing acc with
  | nil => simp [resolvedImportsList]
  | cons x xs ih =>
    simp only [List.foldl_cons, resolvedImportsList, List.nil_append]
    rw [ih, ih (resolveImport root parentDir x), List.append_assoc]

/-- The `resolved_imports` loop distributes over concatenation of the
extracted reference list. -/
theorem resolvedImportsList_append (root parentDir : PathT) (l1 l2 : List String) :
    resolvedImportsList root parentDir (l1 ++ l2)
      = resolvedImportsList root parentDir l1 ++ resolvedImportsList root parentDir l2 := by
  unfold resolvedImportsList
  rw [List.foldl_append, resolvedImportsList_go]
  rfl

/-- C7: a reference starting with the path-relative marker is resolved
against the referencing file's directory; when the resolved path stays
under the root it contributes exactly one edge, the root-relative
rendering of the resolved path, and when it escapes the root it
contributes no edge at all (and no error), leaving the rest of the edge
list untouched. -/
theorem claim_C7_theorem (root parentDir : PathT) (imps1 imps2 : List String)
    (imp : String) (hRel : strStartsWith imp "." = true) :
    (root.isPrefixOf (normalizeSegs (parentDir ++ strSplitOn imp '/')) = false →
      resolvedImportsList root parentDir (imps1 ++ imp :: imps2)
        = resolvedImportsList root parentDir (imps1 ++ imps2))
    ∧ (root.isPrefixOf (normalizeSegs (parentDir ++ strSplitOn imp '/')) = true →
      resolvedImportsList root parentDir (imps1 ++ imp :: imps2)
        = resolvedImportsList root parentDir imps1
          ++ pathToString ((normalizeSegs (parentDir ++ strSplitOn imp '/')).drop root.length)
            :: resolvedImportsList root parentDir imps2) := by
  have key : resolvedImportsList root parentDir (imps1 ++ imp :: imps2)
      = resolvedImportsList root parentDir imps1
        ++ resolveImport root parentDir imp
        ++ resolvedImportsList root parentDir imps2 := by
    rw [show imps1 ++ imp :: imps2 = (imps1 ++ [imp]) ++ imps2 by simp,
      resolvedImportsList_append, resolvedImportsList_append]
    simp [resolvedImportsList]
  constructor <;> intro hin
  · have hin' : ¬ (root <+: normalizeSegs (parentDir ++ strSplitOn imp '/')) := by
      rw [← List.isPrefixOf_iff_prefix, hin]
      exact Bool.false_ne_true
    rw [key, resolvedImportsList_append]
    simp [resolveImport, hRel, hin']
  · have hin' : root <+: normalizeSegs (parentDir ++ strSplitOn imp '/') := by
      rw [← List.isPrefixOf_iff_prefix, hin]
    rw [key]
    simp [resolveImport, hRel, hin']

/-- Witness for C7: `../x.ts` referenced from `r/src` resolves to
`r/x.ts`, inside the root `r`. -/
theorem claim_C7_witness :
    strStartsWith "../x.ts" "." = true
    ∧ ((["r"] : PathT).isPrefixOf
          (normalizeSegs (["r", "src"] ++ strSplitOn "../x.ts" '/')) = false →
        resolvedImportsList ["r"] ["r", "src"] (["ext"] ++ "../x.ts" :: ["@/y"])
          = resolvedImportsList ["r"] ["r", "src"] (["ext"] ++ ["@/y"]))
    ∧ ((["r"] : PathT).isPrefixOf
          (normalizeSegs (["r", "src"] ++ strSplitOn "../x.ts" '/')) = true →
        resolvedImportsList ["r"] ["r", "src"] (["ext"] ++ "../x.ts" :: ["@/y"])
          = resolvedImportsList ["r"] ["r", "src"] ["ext"]
            ++ pathToString ((normalizeSegs
                  (["r", "src"] ++ strSplitOn "../x.ts" '/')).drop
                    (["r"] : PathT).length)
              :: resolvedImportsList ["r"] ["r", "src"] ["@/y"]) :=
  ⟨by decide,
    ( claim_C7_theorem ["r"] ["r", "src"] ["ext"] ["@/y"] "../x.ts" (by decide)).1,
    ( claim_C7_theorem ["r"] ["r", "src"] ["ext"] ["@/y"] "../x.ts" (by decide)).2⟩

/-- The per-entry invariant of the file index: a path stored under key
`k` bears `k` as its bare filename, contains no `node_modules` segment,
and has no directory segment starting with a dot. -/
def goodCacheEntry (k : String) (p : PathT) : Prop :=
  p.getLastD "" = k ∧ "node_modules" ∉ p
    ∧ ∀ s ∈ p.dropLast, strStartsWith s "." = false

/-- The index invariant, entrywise. -/
def cacheWellFormed (cache : Cache) : Prop :=
  ∀ kv ∈ cache, ∀ p ∈ kv.2, goodCacheEntry kv.1 p

/-- Inserting a good entry preserves the index invariant. -/
theorem insertCache_wf (cache : Cache) (name : String) (p : PathT)
    (hc : cacheWellFormed cache) (hp : goodCacheEntry name p) :
    cacheWellFormed (insertCache cache name p) := by
  unfold insertCache
  split
  · intro kv hkv q hq
    rw [List.mem_map] at hkv
    obtain ⟨kv0, hkv0, rfl⟩ := hkv
    by_cases he : kv0.1 = name
    · rw [if_pos he] at hq ⊢
      rcases List.mem_append.1 hq with h | h
      · exact hc kv0 hkv0 q h
      · rw [List.mem_singleton] at h
        subst h
        show goodCacheEntry kv0.1 q
        rw [he]
        exact hp
    · rw [if_neg he] at hq ⊢
      exact hc kv0 hkv0 q hq
  · intro kv hkv q hq
    rcases List.mem_append.1 hkv with h | h
    · exact hc kv h q hq
    · rw [List.mem_singleton] at h
      subst h
      rw [List.mem_singleton] at hq
      subst hq
      exact hp

/-- Every entry of the built file index is good. -/
theorem build_file_cache_wf (tree : List PathT) :
    cacheWellFormed (build_file_cache tree) := by
  unfold build_file_cache
  suffices h : ∀ acc : Cache, cacheWellFormed acc →
      cacheWellFormed (tree.foldl (fun cache p =>
        if skipCachedFile p then cache
        else insertCache cache (p.getLastD "") p) acc) by
    exact h [] (by intro kv hkv; simp at hkv)
  induction tree with
  | nil => intro acc hacc; exact hacc
  | cons p rest ih =>
    intro acc hacc
    simp only [List.foldl_cons]
    apply ih
    by_cases hskip : skipCachedFile p
    · simpa [hskip] using hacc
    · rw [if_neg hskip]
      apply insertCache_wf _ _ _ hacc
      have hs : skipCachedFile p = false := Bool.eq_false_iff.mpr hskip
      simp only [skipCachedFile, Bool.or_eq_false_iff] at hs
      refine ⟨rfl, ?_, ?_⟩
      · have h1 : "node_modules" ∉ p := by simpa using hs.1
        exact h1
      · intro s hsmem
        have h2 := hs.2
        rw [List.any_eq_false] at h2
        exact Bool.eq_false_iff.mpr (h2 s hsmem)

/-- C10: after the file-index build, every path stored under a key has
exactly that key as its bare filename, contains no `node_modules`
segment, and has no directory segment beginning with a dot.  The index
is a pure value, read but never rebuilt or mutated afterwards
(`find_file_in_cache` only looks entries up), so the invariant holds
for the rest of the run. -/
theorem claim_C10_theorem (tree : List PathT) (k : String) (p : PathT)
    (h : p ∈ find_file_in_cache (build_file_cache tree) k) :
    p.getLastD "" = k ∧ "node_modules" ∉ p
      ∧ ∀ s ∈ p.dropLast, strStartsWith s "." = false := by
  unfold find_file_in_cache at h
  rcases hf : (build_file_cache tree).find? (fun kv => kv.1 = k) with _ | kv
  · rw [hf] at h; simp at h
  · rw [hf] at h
    simp only [Option.map_some', Option.getD_some] at h
    have hmem := List.mem_of_find?_eq_some hf
    have hkey := List.find?_some hf
    simp only [decide_eq_true_eq] at hkey
    have hgood := build_file_cache_wf tree kv hmem p h
    rw [hkey] at hgood
    exact hgood

/-- Witness for C10 on a one-file tree. -/
theorem claim_C10_witness :
    (["r", "docs", "g.md"] : PathT) ∈
        find_file_in_cache (build_file_cache [["r", "docs", "g.md"]]) "g.md"
    ∧ (["r", "docs", "g.md"] : PathT).getLastD "" = "g.md"
    ∧ "node_modules" ∉ (["r", "docs", "g.md"] : PathT)
    ∧ strStartsWith "docs" "." = false := by
  have h := claim_C10_theorem [["r", "docs", "g.md"]] "g.md"
    ["r", "docs", "g.md"] (by decide)
  exact ⟨by decide, h.1, h.2.1, h.2.2 "docs" (by decide)⟩

/-! ## C3: the claim-side description of candidate scoring -/

/-- The fixed category directory names of the scoring heuristic. -/
def categoryNames : List String := ["how-to", "reference", "explanation", "tutorials"]

/-- The score as the claim states it: +2 per directory segment of the
broken target (filename excluded) appearing among the candidate's
segments, +1 for `docs`, +3 for not-`archive`, +5 per category name
present in both. -/
def scoreSpec (origParts candParts : List String) : Nat :=
  2 * origParts.dropLast.countP (fun p => decide (p ∈ candParts))
    + (if "docs" ∈ candParts then 1 else 0)
    + (if "archive" ∈ candParts then 0 else 3)
    + 5 * categoryNames.countP
        (fun c => decide (c ∈ origParts) && decide (c ∈ candParts))

/-- The highest score over the candidate list. -/
def maxScoreSpec (origParts : List String) (candidates : List PathT) : Nat :=
  candidates.foldl (fun m c => max m (scoreSpec origParts c)) 0

/-- The choice as the claim states it: the earliest candidate attaining
the highest score, accepted when that score reaches the confidence
floor 3; otherwise the first non-archival candidate, and failing that
the first candidate. -/
def chooseSpec (origParts : List String) (candidates : List PathT) : Option PathT :=
  if 3 ≤ maxScoreSpec origParts candidates then
    candidates.find? (fun c => scoreSpec origParts c = maxScoreSpec origParts candidates)
  else
    match candidates.find? (fun c => !(c.contains "archive")) with
    | some c => some c
    | none => candidates.head?

/-- The +2 accumulation loop counts matching segments. -/
theorem score2_fold (cand : List String) (l : List String) (a : Nat) :
    l.foldl (fun s p => if p ∈ cand then s + 2 else s) a
      = a + 2 * l.countP (fun p => decide (p ∈ cand)) := by
  induction l generalizing a with
  | nil => simp
  | cons x xs ih =>
    by_cases hx : x ∈ cand
    · simp [hx, ih, List.countP_cons]
      ring
    · simp [hx, ih, List.countP_cons]

/-- The code's accumulated score equals the claim's sum. -/
theorem scoreCandidate_eq_scoreSpec (op c : List String) :
    scoreCandidate op c = scoreSpec op c := by
  unfold scoreCandidate scoreSpec
  rw [score2_fold]
  simp only [categoryNames, List.countP_cons, List.countP_nil,
    Bool.and_eq_true, decide_eq_true_eq]
  split_ifs <;> omega

/-- The running maximum never drops below its base. -/
theorem foldl_max_base_le (op : List String) (l : List PathT) (s : Nat) :
    s ≤ l.foldl (fun m c => max m (scoreSpec op c)) s := by
  induction l generalizing s with
  | nil => simp
  | cons x xs ih =>
    simp only [List.foldl_cons]
    exact le_trans (le_max_left s (scoreSpec op x)) (ih (max s (scoreSpec op x)))

/-- A maximum exceeding its base is attained by some element. -/
theorem foldl_max_attained (op : List String) (l : List PathT) (s : Nat) :
    l.foldl (fun m c => max m (scoreSpec op c)) s = s
      ∨ ∃ c ∈ l, scoreSpec op c = l.foldl (fun m c => max m (scoreSpec op c)) s := by
  induction l generalizing s with
  | nil => left; rfl
  | cons x xs ih =>
    simp only [List.foldl_cons]
    rcases ih (max s (scoreSpec op x)) with h | ⟨c, hc, hfc⟩
    · by_cases hfx : scoreSpec op x ≤ s
      · left; rw [h, max_eq_left hfx]
      · right
        exact ⟨x, List.mem_cons_self x xs, by rw [h, max_eq_right (by omega)]⟩
    · right; exact ⟨c, List.mem_cons_of_mem x hc, hfc⟩

/-- Characterization of the best-match fold: starting from threshold
`s`, it keeps its accumulator when nothing beats `s`, and otherwise
returns the running maximum together with the earliest candidate
attaining it. -/
theorem pickBest_go (op : List String) (l : List PathT) (b : Option PathT) (s : Nat) :
    (l.foldl (fun m c => max m (scoreSpec op c)) s = s →
      l.foldl (fun acc c =>
        if scoreSpec op c > acc.2 then (some c, scoreSpec op c) else acc) (b, s) = (b, s))
    ∧ (s < l.foldl (fun m c => max m (scoreSpec op c)) s →
      l.foldl (fun acc c =>
        if scoreSpec op c > acc.2 then (some c, scoreSpec op c) else acc) (b, s)
        = (l.find? (fun c =>
              scoreSpec op c = l.foldl (fun m c => max m (scoreSpec op c)) s),
            l.foldl (fun m c => max m (scoreSpec op c)) s)) := by
  induction l generalizing b s with
  | nil =>
    constructor
    · intro _; rfl
    · intro hlt; simp at hlt
  | cons x xs ih =>
    simp only [List.foldl_cons]
    constructor
    · intro hM
      have hle := foldl_max_base_le op xs (max s (scoreSpec op x))
      rw [hM] at hle
      have hmaxeq : max s (scoreSpec op x) = s := le_antisymm hle (le_max_left _ _)
      have hfx : scoreSpec op x ≤ s := hmaxeq ▸ le_max_right s (scoreSpec op x)
      rw [if_neg (by omega)]
      exact (ih b s).1 (by rw [hmaxeq] at hM; exact hM)
    · intro hM
      by_cases hfx : scoreSpec op x > s
      · rw [if_pos hfx]
        have hmaxeq : max s (scoreSpec op x) = scoreSpec op x :=
          max_eq_right (le_of_lt hfx)
        simp only [hmaxeq] at hM ⊢
        rcases eq_or_lt_of_le (foldl_max_base_le op xs (scoreSpec op x)) with heq | hlt
        · rw [(ih (some x) (scoreSpec op x)).1 heq.symm]
          simp only [← heq]
          rw [List.find?_cons_of_pos _ (by simp)]
        · rw [(ih (some x) (scoreSpec op x)).2 hlt,
            List.find?_cons_of_neg _ (by simp; omega)]
      · rw [if_neg hfx]
        have hmaxeq : max s (scoreSpec op x) = s := max_eq_left (by omega)
        simp only [hmaxeq] at hM ⊢
        rw [(ih b s).2 hM, List.find?_cons_of_neg _ (by simp; omega)]

/-- C3: in the multiple-candidate case, `find_correct_path` implements
exactly the claimed policy: each candidate is scored by the sum of +2
per matching broken-target directory segment, +1 for `docs`, +3 for not
being archival and +5 per shared category name; the earliest candidate
attaining the highest score is chosen, accepted when its score is at
least 3; otherwise the first non-archival candidate, and if every
candidate is archival the first candidate, is chosen — rendered
relative to the source file's directory. -/
theorem claim_C3_theorem (cache : Cache) (sourceFile : PathT) (brokenLink : String)
    (h : 2 ≤ (find_file_in_cache cache (pathName brokenLink)).length) :
    find_correct_path cache sourceFile brokenLink
      = (chooseSpec (pathParts brokenLink)
            (find_file_in_cache cache (pathName brokenLink))).map
          (calculate_relative_path sourceFile) := by
  simp only [find_correct_path, chooseSpec, pickBest, maxScoreSpec,
    scoreCandidate_eq_scoreSpec]
  generalize hcs : find_file_in_cache cache (pathName brokenLink) = cs at h ⊢
  generalize hop : pathParts brokenLink = op
  have h0 : cs.isEmpty = false := by
    cases cs with
    | nil => simp at h
    | cons a t => rfl
  have h1 : ¬ (cs.length = 1) := by omega
  simp only [h0, Bool.false_eq_true, if_false, h1]
  rcases Nat.eq_zero_or_pos (cs.foldl (fun m c => max m (scoreSpec op c)) 0) with hM | hM
  · rcases hfb : cs.find? (fun c => !(c.contains "archive")) with _ | c <;>
      simp [hfb, hM, fallbackCandidate, (pickBest_go op cs none 0).1 hM]
  · obtain ⟨c0, hmem0, hsc0⟩ : ∃ c ∈ cs,
        scoreSpec op c = cs.foldl (fun m c => max m (scoreSpec op c)) 0 := by
      rcases foldl_max_attained op cs 0 with h' | h'
      · omega
      · exact h'
    rcases hf : cs.find? (fun c =>
        decide (scoreSpec op c = cs.foldl (fun m c => max m (scoreSpec op c)) 0))
      with _ | c1
    · exfalso
      rw [List.find?_eq_none] at hf
      have h2 := hf c0 hmem0
      simp only [decide_eq_true_eq] at h2
      exact h2 hsc0
    · by_cases h3 : 3 ≤ cs.foldl (fun m c => max m (scoreSpec op c)) 0
      · simp [(pickBest_go op cs none 0).2 hM, hf, h3]
      · rcases hfb : cs.find? (fun c => !(c.contains "archive")) with _ | c <;>
          simp [hfb, (pickBest_go op cs none 0).2 hM, hf, h3, fallbackCandidate]

/-- Witness for C3: the two-candidate scenario — an archival copy and a
`how-to` copy of `guide.md` — in which the claimed policy picks the
`how-to` candidate. -/
theorem claim_C3_witness :
    2 ≤ (find_file_in_cache
        [("guide.md", [["r", "docs", "archive", "old", "guide.md"],
          ["r", "docs", "how-to", "guide.md"]])]
        (pathName "../old/guide.md")).length
    ∧ find_correct_path
        [("guide.md", [["r", "docs", "archive", "old", "guide.md"],
          ["r", "docs", "how-to", "guide.md"]])]
        ["r", "docs", "index.md"] "../old/guide.md"
      = (chooseSpec (pathParts "../old/guide.md")
            (find_file_in_cache
              [("guide.md", [["r", "docs", "archive", "old", "guide.md"],
                ["r", "docs", "how-to", "guide.md"]])]
              (pathName "../old/guide.md"))).map
          (calculate_relative_path ["r", "docs", "index.md"]) :=
  ⟨by decide,
    claim_C3_theorem
      [("guide.md", [["r", "docs", "archive", "old", "guide.md"],
        ["r", "docs", "how-to", "guide.md"]])]
      ["r", "docs", "index.md"] "../old/guide.md" (by decide)⟩

/-! ## C5: the committed-fix round trip, and a failing second run -/

/-- A filesystem (existing paths, files and directories) whose tree
contains a directory whose name contains a closing parenthesis. -/
def c5Fs : List PathT :=
  [["r", "a.md"], ["r", "v1.md)x", "t.md"], ["r", "v1.md)x"],
    ["r", "docs", "v1.md"], ["r", "docs"], ["r"]]

/-- The file index built over the markdown files of that tree (the
same index is rebuilt identically by a second run, since rewriting
changes no filenames). -/
def c5Cache : Cache :=
  build_file_cache [["r", "a.md"], ["r", "v1.md)x", "t.md"], ["r", "docs", "v1.md"]]

/-- First repair pass over `r/a.md`. -/
def c5Run1 : FileStats × Option (List Char) :=
  fix_links_in_file c5Fs c5Cache ["r", "a.md"] false (some "[x](t.md)".data)

/-- Second repair pass over the content the first pass wrote. -/
def c5Run2 : FileStats × Option (List Char) :=
  fix_links_in_file c5Fs c5Cache ["r", "a.md"] false c5Run1.2

/-- C5 (counterexample): the first pass commits the replacement
`v1.md)x/t.md` (which passes re-validation) and writes; but on the
resulting content the second pass is not a no-op: the parenthesis in
the committed link truncates it at re-extraction to the broken `v1.md`,
which the second pass "fixes" again, modifying the file a second
time.  So a second run does not leave previously-fixed files
unmodified. -/
theorem claim_C5_counterexample :
    c5Run1.1.fixedLinks = 1
    ∧ c5Run1.2 = some "[x](v1.md)x/t.md)".data
    ∧ c5Run2.1.fixedLinks = 1
    ∧ c5Run2.2 = some "[x](docs/v1.md)x/t.md)".data
    ∧ c5Run2.2 ≠ none := by
  decide
